import Mathlib

/-!
Verification of `Path_Finder.py` (MrSpideyNihal/Tessract_path_finder).

The module is a single class `TessdataFinder` that searches an operating
system for `tessdata` directories.  We shallowly embed it: every external
effect the Python code performs (environment lookup, filesystem metadata,
directory listing, subprocess output, `shutil.which`, `Path.resolve`,
clock readings, and the scheduling outcomes of the two thread pools) is
supplied by an explicit `World` value, and each method of the class
becomes a total Lean function over that world.  Exceptions that the
Python code may raise to its caller are modelled with `Except`; clock
reads (`time.time()` via `_elapsed`/`_is_timeout`) are modelled as
streams of elapsed-time values consumed one read at a time.

String helpers (`split`, `lower`, `normpath`, `join`, pathlib `name`,
`suffix`, `parent`) are re-implemented below from the CPython semantics
the source relies on; POSIX path conventions are used for the
OS-dispatched `os.path` functions (the claims under verification never
depend on the Windows variants).
-/

/-- Python `pat in s` (substring test) on character lists: true iff `pat`
occurs contiguously in `l` (the empty pattern always occurs). -/
def listContainsSub (pat : List Char) : List Char → Bool
  | [] => pat.isEmpty
  | c :: rest => pat.isPrefixOf (c :: rest) || listContainsSub pat rest

/-- Python `pat in s` for strings. -/
def strContains (s pat : String) : Bool :=
  listContainsSub pat.toList s.toList

/-- ASCII lower-casing of one character, as CPython does for ASCII input. -/
def lowerChar (c : Char) : Char :=
  if 'A' ≤ c ∧ c ≤ 'Z' then Char.ofNat (c.toNat + 32) else c

/-- Python `s.lower()` (the worlds considered here are ASCII). -/
def strLower (s : String) : String :=
  String.mk (s.toList.map lowerChar)

/-- Split a character list at every character satisfying `p`, keeping
empty pieces, as Python `s.split(sep)` does. -/
def splitPred (p : Char → Bool) : List Char → List (List Char)
  | [] => [[]]
  | c :: rest =>
    match splitPred p rest with
    | [] => if p c then [[], []] else [[c]]
    | piece :: pieces =>
      if p c then [] :: piece :: pieces else (c :: piece) :: pieces

/-- Python `s.split(sep)` for a single separator character. -/
def splitChar (sep : Char) (l : List Char) : List (List Char) :=
  splitPred (fun c => c = sep) l

/-- Python whitespace for `str.split()` with no argument. -/
def isPySpace (c : Char) : Bool :=
  c = ' ' || c = '\t' || c = '\n' || c = '\x0d' || c = '\x0b' || c = '\x0c'

/-- Python `s.split()`: split on whitespace runs, dropping empty pieces. -/
def splitWs (l : List Char) : List (List Char) :=
  (splitPred isPySpace l).filter (fun piece => ¬ piece.isEmpty)

/-- The components of a pathlib path: split on `/`, dropping empty
components and single dots, as `PurePosixPath.parts` does. -/
def pathParts (s : String) : List (List Char) :=
  (splitChar '/' s.toList).filter (fun c => c ≠ [] ∧ c ≠ ['.'])

/-- pathlib `Path(s).name`: the final path component (empty for `/`). -/
def pathName (s : String) : String :=
  String.mk ((pathParts s).getLast?.getD [])

/-- Index of the last occurrence of `c` in `l`, if any. -/
def lastIdxOf (c : Char) : List Char → Option Nat
  | [] => none
  | a :: rest =>
    match lastIdxOf c rest with
    | some i => some (i + 1)
    | none => if a = c then some 0 else none

/-- pathlib `Path(name).suffix` applied to an entry name: the part from
the last dot on, provided that dot is neither the first nor the last
character (so `.traineddata` as a whole name, or a trailing dot, give
the empty suffix). -/
def pathSuffix (name : String) : String :=
  let l := name.toList
  match lastIdxOf '.' l with
  | none => ""
  | some i => if 0 < i ∧ i + 1 < l.length then String.mk (l.drop i) else ""

/-- pathlib `Path(s).parent` for POSIX paths. -/
def pathParent (s : String) : String :=
  let hasRoot := s.toList.head? = some '/'
  let ps := (pathParts s).dropLast
  if ps.isEmpty then (if hasRoot then "/" else ".")
  else (if hasRoot then "/" else "") ++ String.intercalate "/" (ps.map String.mk)

/-- `os.path.join(a, b)` with separator `sep` (POSIX rule, also used for
the backslash joins the source performs on Windows-only code paths): an
absolute `b` wins, otherwise `b` is appended with one separator. -/
def joinSep (sep : Char) (a b : String) : String :=
  if b.toList.head? = some sep then b
  else if a = "" then b
  else if a.toList.getLast? = some sep then a ++ b
  else a ++ String.mk [sep] ++ b

/-- CPython `posixpath.normpath` component loop: drop `.` and empty
components, resolve `..` against a previous real component. -/
def normComps (initialSlashes : Bool) : List (List Char) → List (List Char) → List (List Char)
  | acc, [] => acc.reverse
  | acc, comp :: rest =>
    if comp = [] ∨ comp = ['.'] then normComps initialSlashes acc rest
    else if comp ≠ ['.', '.'] ∨ (¬ initialSlashes ∧ acc = [])
        ∨ (acc ≠ [] ∧ acc.head? = some ['.', '.']) then
      normComps initialSlashes (comp :: acc) rest
    else if acc ≠ [] then normComps initialSlashes acc.tail rest
    else normComps initialSlashes acc rest

/-- CPython `posixpath.normpath`. -/
def posixNormpath (s : String) : String :=
  if s = "" then "." else
  let l := s.toList
  let slashes : Nat :=
    if l.head? = some '/' then
      if l.take 2 = ['/', '/'] ∧ l.take 3 ≠ ['/', '/', '/'] then 2 else 1
    else 0
  let comps := normComps (slashes ≠ 0) [] (splitChar '/' l)
  let body := String.intercalate "/" (comps.map String.mk)
  let out := String.mk (List.replicate slashes '/') ++ body
  if out = "" then "." else out

/-! ## The world model -/

/-- Result of `Path.iterdir()` on one directory: the list of entry names,
or an I/O error (`PermissionError`/`OSError`) raised by the listing. -/
inductive ListingResult where
  | ok (entries : List String)
  | err
deriving DecidableEq

/-- What the filesystem answers about one path string. -/
structure FsEntryInfo where
  isDir : Bool
  isSymlink : Bool
  isFile : Bool
  isExec : Bool
  fsExists : Bool
  listing : ListingResult
deriving DecidableEq

/-- The two futures submitted by `find_all_tessdata_paths` to its
concurrent tier: the registry (or dummy) method and
`_search_filesystem_smart`. -/
inductive T2Task where
  | regTask
  | fsTask
deriving DecidableEq

/-- Everything outside the program that one invocation can observe.
Clock reads are streams of elapsed-time values (`_elapsed()` results),
consumed one per read; thread-scheduling outcomes (which futures finish
inside the `as_completed` window, and in which order they are yielded)
are supplied as data. -/
structure World where
  osType : String
  timeout : Rat
  maxWorkers : Nat
  cwd : String
  env : String → Option String
  fs : String → FsEntryInfo
  resolve : String → String
  expand : String → String
  which : String → Option String
  runBinary : String → Except Unit String
  winregAvailable : Bool
  registry : Nat → Option String
  elapsedMain : Nat → Rat
  elapsedFs : Nat → Rat
  elapsedRoot : Nat → Nat → Rat
  t2Completed : T2Task → Bool
  t2Order : List T2Task
  rootCompleted : Nat → Bool
  rootOrder : List Nat

/-- `self._is_timeout()` evaluated against the `i`-th reading of a clock
stream: `self._elapsed() > self.timeout`. -/
def isTimeoutAt (timeout : Rat) (clk : Nat → Rat) (i : Nat) : Bool :=
  decide (timeout < clk i)

/-- `os.path.abspath` (POSIX): `normpath(join(cwd, path))`. -/
def abspathW (w : World) (p : String) : String :=
  posixNormpath (joinSep '/' w.cwd p)

/-! ## Validator and crawl predicates -/

/-- `_is_valid_tessdata_dir`: the path is a directory and its listing
contains an entry whose suffix is `.traineddata`; any listing error is
caught and yields `false`. -/
def is_valid_tessdata_dir (fs : String → FsEntryInfo) (path : String) : Bool :=
  if ¬ (fs path).isDir then false
  else
    match (fs path).listing with
    | .err => false
    | .ok entries => entries.any (fun f => pathSuffix f == ".traineddata")

/-- The `skip_dirs` set of `_should_search_directory`. -/
def skipDirs : List String :=
  ["windows", "system32", "syswow64", "$recycle.bin", "recovery",
   "proc", "sys", "dev", "run", "tmp", "var/tmp", "boot",
   ".git", ".svn", "__pycache__", "node_modules", ".vscode"]

/-- The `interesting_keywords` set of `_should_search_directory`. -/
def interestingKeywords : List String :=
  ["tesseract", "ocr", "program", "share", "local", "opt", "tools", "bin"]

/-- `_should_search_directory`: the lowercase name must avoid the skip
set and then contain an interesting keyword or be shorter than 3
characters. -/
def should_search_directory (path : String) : Bool :=
  let name := strLower (pathName path)
  if name ∈ skipDirs then false
  else interestingKeywords.any (fun k => strContains name k) || name.length < 3

/-! ## Static path tables -/

/-- `_get_relative_tessdata_paths`. -/
def get_relative_tessdata_paths (osType : String) : List String :=
  if osType = "windows" then
    ["tessdata", "../tessdata", "../../tessdata", "../share/tessdata",
     "../share/tesseract-ocr/tessdata"]
  else
    ["../share/tesseract-ocr/tessdata", "../share/tesseract/tessdata",
     "../share/tessdata", "../../share/tesseract-ocr/tessdata",
     "../../share/tesseract/tessdata", "../tessdata", "tessdata"]

/-- `_get_common_tessdata_paths`. -/
def get_common_tessdata_paths (osType : String) : List String :=
  if osType = "windows" then
    ["C:/Program Files/Tesseract-OCR/tessdata",
     "C:/Program Files (x86)/Tesseract-OCR/tessdata",
     "C:/Tesseract-OCR/tessdata",
     "C:/tools/tesseract/tessdata",
     "${LOCALAPPDATA}/Tesseract-OCR/tessdata",
     "${PROGRAMFILES}/Tesseract-OCR/tessdata",
     "${PROGRAMFILES(X86)}/Tesseract-OCR/tessdata",
     "~/AppData/Local/Tesseract-OCR/tessdata",
     "~/tessdata"]
  else if osType = "darwin" then
    ["/usr/local/share/tesseract-ocr/tessdata",
     "/usr/local/share/tessdata",
     "/opt/homebrew/share/tesseract-ocr/tessdata",
     "/usr/share/tesseract-ocr/tessdata",
     "~/.local/share/tesseract/tessdata",
     "~/tessdata"]
  else
    ["/usr/share/tesseract-ocr/tessdata",
     "/usr/share/tessdata",
     "/usr/local/share/tesseract-ocr/tessdata",
     "/usr/local/share/tessdata",
     "/opt/tesseract/share/tessdata",
     "~/.local/share/tesseract/tessdata",
     "~/.tesseract/tessdata",
     "~/tessdata"]

/-- `_get_common_binary_paths`. -/
def get_common_binary_paths (osType : String) : List String :=
  if osType = "windows" then
    ["C:/Program Files/Tesseract-OCR/tesseract.exe",
     "C:/Program Files (x86)/Tesseract-OCR/tesseract.exe",
     "C:/tools/tesseract/tesseract.exe"]
  else
    ["/usr/bin/tesseract", "/usr/local/bin/tesseract", "/opt/tesseract/bin/tesseract"]

/-- `_get_search_roots`: on Windows the Program Files folders of the
first two existing drives, elsewhere the fixed POSIX roots. -/
def get_search_roots (w : World) : List String :=
  if w.osType = "windows" then
    let drives := (("CDEFGHIJKLMNOPQRSTUVWXYZ".toList).map
      (fun letter => String.mk [letter] ++ ":\\")).filter
      (fun d => (w.fs d).fsExists)
    let roots := (drives.take 2).flatMap
      (fun d => [joinSep '\\' d "Program Files", joinSep '\\' d "Program Files (x86)"])
    roots.filter (fun r => (w.fs r).fsExists)
  else ["/usr", "/usr/local", "/opt"]

/-- `os.sep` as dispatched by the running OS. -/
def osSep (osType : String) : Char := if osType = "windows" then '\\' else '/'

/-- `os.pathsep` as dispatched by the running OS. -/
def pathSepOf (osType : String) : Char := if osType = "windows" then ';' else ':'

/-! ## Deduplicator / Prioritizer -/

/-- First scoring test of `priority_key`: the lowercased path contains
`'tessdata_prefix'` or `'tesseract'` (the literal token strings). -/
def hasPrefixToken (pl : String) : Bool :=
  strContains pl "tessdata_prefix" || strContains pl "tesseract"

/-- Second scoring test: a standard system location substring. -/
def hasSysLocation (pl : String) : Bool :=
  strContains pl "/usr/share" || strContains pl "/usr/local/share" ||
    strContains pl "program files"

/-- Third scoring test: `any(char.isdigit() for char in path)` on the
original (un-lowered) path. -/
def hasDigit (p : String) : Bool :=
  p.toList.any Char.isDigit

/-- `priority_key`: the `(priority, path.lower())` sort key. -/
def priority_key (path : String) : Int × String :=
  let pl := strLower path
  let p1 : Int := if hasPrefixToken pl then -1000 else 0
  let p2 : Int := if hasSysLocation pl then p1 - 100 else p1
  let p3 : Int := if hasDigit path then p2 - 10 else p2
  (p3, pl)

/-- Code-point lexicographic `≤` on character lists — Python string
comparison. -/
def charListLeB : List Char → List Char → Bool
  | [], _ => true
  | _ :: _, [] => false
  | a :: as, b :: bs =>
    if a.toNat < b.toNat then true
    else if b.toNat < a.toNat then false
    else charListLeB as bs

/-- Python tuple comparison on `(int, str)` sort keys. -/
def keyLeB (x y : Int × String) : Bool :=
  if x.1 < y.1 then true
  else if y.1 < x.1 then false
  else charListLeB x.2.toList y.2.toList

/-- The total preorder `sorted(..., key=priority_key)` sorts by. -/
def priorityLe (a b : String) : Prop :=
  keyLeB (priority_key a) (priority_key b) = true

instance : DecidableRel priorityLe := fun _ _ => instDecidableEqBool _ _

/-- The dedup loop of `_prioritize_paths`: normalize with `normf`
(`os.path.normpath`, passed explicitly since it is OS-dispatched) and
keep the first occurrence of every normalized form. -/
def dedupNormed (normf : String → String) (paths : List String) : List String :=
  paths.foldl (fun acc p =>
    let n := normf p
    if n ∈ acc then acc else acc ++ [n]) []

/-- `_prioritize_paths`: dedup after normalization, then stable-sort by
`priority_key`.  Python's `sorted` is a stable sort; for a total
preorder every stable sort produces the same list, so insertion sort is
a faithful model of it. -/
def prioritize_paths (normf : String → String) (paths : List String) : List String :=
  List.insertionSort priorityLe (dedupNormed normf paths)

/-! ## Tier-1 probes -/

/-- First candidate in the list that validates (the per-variable
`for candidate in candidates: ... break` loop of
`_check_environment_vars`). -/
def firstValidCandidate (fs : String → FsEntryInfo) : List String → Option String
  | [] => none
  | c :: cs => if is_valid_tessdata_dir fs c then some c else firstValidCandidate fs cs

/-- `_check_environment_vars`: for each of the three variables that is
set and non-empty, take the first of `[value, value/tessdata]` that
validates. -/
def check_environment_vars (w : World) : List String :=
  ["TESSDATA_PREFIX", "TESSERACT_DATA_PATH", "TESSERACT_PREFIX"].foldl (fun acc var =>
    match w.env var with
    | none => acc
    | some p =>
      if p = "" then acc
      else
        match firstValidCandidate w.fs [p, joinSep (osSep w.osType) p "tessdata"] with
        | some c => acc ++ [abspathW w c]
        | none => acc) []

/-- `binaries.append` guarded by `not in binaries`. -/
def addIfNew (acc : List String) (x : String) : List String :=
  if x ∈ acc then acc else acc ++ [x]

/-- `self.found_paths.update(paths)` — the shared accumulator is a
Python set; we model it as an insertion-ordered duplicate-free list
(no claim below depends on the set's iteration order). -/
def addAll (acc : List String) (ps : List String) : List String :=
  ps.foldl addIfNew acc

/-- `_find_tesseract_binaries`: `shutil.which`, then a manual `PATH`
scan, then the fixed per-OS locations, deduplicating throughout. -/
def find_tesseract_binaries (w : World) : List String :=
  let names := ["tesseract", "tesseract.exe"]
  let b1 := names.foldl (fun acc n =>
    match w.which n with
    | some b => addIfNew acc b
    | none => acc) []
  let pathEnv := (w.env "PATH").getD ""
  let b2 := ((splitChar (pathSepOf w.osType) pathEnv.toList).map String.mk).foldl
    (fun acc dir =>
      if dir = "" then acc
      else names.foldl (fun acc2 n =>
        let bp := joinSep (osSep w.osType) dir n
        if (w.fs bp).isFile && (w.fs bp).isExec then addIfNew acc2 bp else acc2) acc) b1
  (get_common_binary_paths w.osType).foldl (fun acc p =>
    let e := w.expand p
    if (w.fs e).isFile && (w.fs e).isExec then addIfNew acc e else acc) b2

/-- Method 1 of `_check_tesseract_binary_info`: scan the captured
stdout of `binary --print-parameters` for validating directory tokens
on lines mentioning `tessdata`. -/
def scanStdoutForTessdata (w : World) (out : String) : List String :=
  (splitChar '\n' out.toList).foldl (fun acc lineL =>
    if strContains (strLower (String.mk lineL)) "tessdata" then
      (splitWs lineL).foldl (fun acc2 wordL =>
        let word := String.mk wordL
        if strContains word "tessdata" && (w.fs word).isDir then
          if is_valid_tessdata_dir w.fs word then acc2 ++ [abspathW w word] else acc2
        else acc2) acc
    else acc) []

/-- Method 2 of `_check_tesseract_binary_info`: candidates at fixed
offsets relative to the binary's resolved parent directory, appended
when new. -/
def relCandidates (w : World) (binary : String) (acc0 : List String) : List String :=
  let binDir := w.resolve (pathParent binary)
  (get_relative_tessdata_paths w.osType).foldl (fun acc rel =>
    let candidate := joinSep (osSep w.osType) binDir rel
    if (w.fs candidate).isDir && is_valid_tessdata_dir w.fs candidate then
      addIfNew acc (w.resolve candidate)
    else acc) acc0

/-- The per-binary loop of `_check_tesseract_binary_info`, with its
budget check (one clock read) at the top of every iteration. -/
def check_tesseract_binary_info_go (w : World) : List String → Nat → List String → List String × Nat
  | [], idx, acc => (acc, idx)
  | b :: bs, idx, acc =>
    if isTimeoutAt w.timeout w.elapsedMain idx then (acc, idx + 1)
    else
      let acc1 := match w.runBinary b with
        | .error _ => acc
        | .ok out => acc ++ scanStdoutForTessdata w out
      check_tesseract_binary_info_go w bs (idx + 1) (relCandidates w b acc1)

/-- `_check_tesseract_binary_info`. -/
def check_tesseract_binary_info (w : World) (idx : Nat) : List String × Nat :=
  check_tesseract_binary_info_go w (find_tesseract_binaries w) idx []

/-- The per-template loop of `_check_common_locations`, with its budget
check at the top of every iteration. -/
def check_common_locations_go (w : World) : List String → Nat → List String → List String × Nat
  | [], idx, acc => (acc, idx)
  | t :: ts, idx, acc =>
    if isTimeoutAt w.timeout w.elapsedMain idx then (acc, idx + 1)
    else
      let e := w.expand t
      let acc2 :=
        if (w.fs e).isDir && is_valid_tessdata_dir w.fs e then acc ++ [abspathW w e] else acc
      check_common_locations_go w ts (idx + 1) acc2

/-- `_check_common_locations`. -/
def check_common_locations (w : World) (idx : Nat) : List String × Nat :=
  check_common_locations_go w (get_common_tessdata_paths w.osType) idx []

/-- `_check_registry_windows`: a no-op off Windows; on Windows, three
fixed keys, each failure skipping only that key.  `w.registry k = none`
models every way reading key `k`'s `InstallPath` can fail. -/
def check_registry_windows (w : World) : List String :=
  if ¬ w.winregAvailable ∨ w.osType ≠ "windows" then []
  else
    (List.range 3).foldl (fun acc k =>
      match w.registry k with
      | none => acc
      | some installPath =>
        let td := joinSep '\\' installPath "tessdata"
        if is_valid_tessdata_dir w.fs td then acc ++ [abspathW w td] else acc) []

/-! ## The filesystem crawl -/

/-- Result of one `_recursive_search` call.  `found` and the final clock
index come from the source; `visited` (nodes whose body ran past the
depth/budget guard) and `expanded` (nodes whose children were iterated)
are ghost instrumentation used to state the claims. -/
structure CrawlRes where
  found : List String
  visited : List (String × Nat)
  expanded : List (String × Nat)
  idx : Nat
deriving DecidableEq

/-- The result of a guard-stopped `_recursive_search` call. -/
def emptyCrawl (idx : Nat) : CrawlRes := ⟨[], [], [], idx⟩

/-- The `for child in current_path.iterdir()` loop: recurse (via `step`)
into children that are non-symlink directories. -/
def crawlChildren (w : World) (step : String → Nat → Nat → CrawlRes)
    (parent : String) (depth : Nat) : List String → Nat → CrawlRes
  | [], idx => emptyCrawl idx
  | name :: rest, idx =>
    let child := joinSep (osSep w.osType) parent name
    if (w.fs child).isDir && !(w.fs child).isSymlink then
      let r1 := step child (depth + 1) idx
      let r2 := crawlChildren w step parent depth rest r1.idx
      ⟨r1.found ++ r2.found, r1.visited ++ r2.visited, r1.expanded ++ r2.expanded, r2.idx⟩
    else crawlChildren w step parent depth rest idx

/-- `_recursive_search`.  The Python function terminates because the
depth guard bounds the recursion; the structurally decreasing `fuel`
argument (always at least `maxD + 2 - depth` at the call sites below,
so the `0` case is unreachable) makes the same bound explicit for Lean.
The guard `depth > max_depth or self._is_timeout()` short-circuits, so
no clock read happens when the depth guard fires. -/
def recSearch (w : World) (clk : Nat → Rat) (maxD : Nat) :
    Nat → String → Nat → Nat → CrawlRes
  | 0, _, _, idx => emptyCrawl idx
  | fuel + 1, path, depth, idx =>
    if maxD < depth then emptyCrawl idx
    else if isTimeoutAt w.timeout clk idx then emptyCrawl (idx + 1)
    else
      if pathName path == "tessdata" && is_valid_tessdata_dir w.fs path then
        ⟨[w.resolve path], [(path, depth)], [], idx + 1⟩
      else if should_search_directory path then
        match (w.fs path).listing with
        | .err => ⟨[], [(path, depth)], [], idx + 1⟩
        | .ok entries =>
          let r := crawlChildren w (fun p d i => recSearch w clk maxD fuel p d i)
            path depth entries (idx + 1)
          ⟨r.found, (path, depth) :: r.visited, (path, depth) :: r.expanded, r.idx⟩
      else ⟨[], [(path, depth)], [], idx + 1⟩

/-- `4 if self.os_type == 'windows' else 5`. -/
def maxDepthOf (osType : String) : Nat := if osType = "windows" then 4 else 5

/-- `_search_directory_tree` on one root, with that root's clock
stream. -/
def search_directory_tree (w : World) (clk : Nat → Rat) (root : String) (idx : Nat) : CrawlRes :=
  let maxD := maxDepthOf w.osType
  recSearch w clk maxD (maxD + 2) root 0 idx

/-! ## `_search_filesystem_smart` -/

deriving instance DecidableEq for Except

/-- Result of the `_search_filesystem_smart` task.  `result` is `.error`
when the method raises (its inner `as_completed` window expiring with an
unfinished root crawl, or `ThreadPoolExecutor` rejecting a zero worker
count); `visited` is ghost instrumentation collecting every directory
visited by the per-root crawls. -/
structure FsSmartRes where
  result : Except Unit (List String)
  visited : List (String × Nat)
deriving DecidableEq

/-- The harvest loop of `_search_filesystem_smart`: one budget check per
yielded root future, `paths.extend` on success.  Returns the collected
paths, whether the loop exited via `break`, and the next clock index. -/
def fsSmartHarvest (w : World) (crawlFound : Nat → List String) :
    List Nat → Nat → List String → List String × Bool × Nat
  | [], j, acc => (acc, false, j)
  | k :: ks, j, acc =>
    if isTimeoutAt w.timeout w.elapsedFs j then (acc, true, j + 1)
    else fsSmartHarvest w crawlFound ks (j + 1) (acc ++ crawlFound k)

/-- `_search_filesystem_smart`: entry budget check, then per-root crawl
futures harvested under an `as_completed` window.  `w.rootCompleted k`
says whether root `k`'s crawl finished inside the window and
`w.rootOrder` is the completion order of those that did; if any root
misses the window and the loop was not broken first, the iteration
raises `TimeoutError` (modelled as `.error ()`, caught by the caller's
harvest of this task). -/
def search_filesystem_smart (w : World) : FsSmartRes :=
  if isTimeoutAt w.timeout w.elapsedFs 0 then ⟨.ok [], []⟩
  else
    let roots := get_search_roots w
    if roots.isEmpty ∨ w.maxWorkers = 0 then ⟨.error (), []⟩
    else
      let crawl := fun k => search_directory_tree w (w.elapsedRoot k) (roots.getD k "") 0
      let visitedAll := ((List.range roots.length).map (fun k => (crawl k).visited)).flatten
      let yields := w.rootOrder.filter (fun k => decide (k < roots.length) && w.rootCompleted k)
      let h := fsSmartHarvest w (fun k => (crawl k).found) yields 2 []
      if h.2.1 then ⟨.ok h.1, visitedAll⟩
      else if (List.range roots.length).all w.rootCompleted then ⟨.ok h.1, visitedAll⟩
      else ⟨.error (), visitedAll⟩

/-! ## The public pipeline -/

/-- The one exception `find_all_tessdata_paths` can raise:
`concurrent.futures.TimeoutError` escaping the `as_completed` iteration
of the concurrent tier. -/
inductive FindErr where
  | timeoutErr
deriving DecidableEq

/-- Result of `find_all_tessdata_paths`.  `probesRun` (which tier-1
probes actually executed: `0` environment, `1` binary introspection,
`2` common locations) and `tier2Ran` are ghost instrumentation. -/
structure FindRes where
  result : Except FindErr (List String)
  probesRun : List Nat
  tier2Ran : Bool
deriving DecidableEq

/-- The value `future.result()` delivers for a completed tier-2 task. -/
def taskResult (w : World) : T2Task → Except Unit (List String)
  | .regTask => .ok (if w.osType = "windows" then check_registry_windows w else [])
  | .fsTask => (search_filesystem_smart w).result

/-- The tier-2 harvest loop: one budget check per yielded future
(`break` on expiry), `found_paths.update` on success, exceptions caught
and logged. -/
def t2Harvest (w : World) : List T2Task → Nat → List String → List String × Bool × Nat
  | [], idx, acc => (acc, false, idx)
  | t :: ts, idx, acc =>
    if isTimeoutAt w.timeout w.elapsedMain idx then (acc, true, idx + 1)
    else
      match taskResult w t with
      | .ok ps => t2Harvest w ts (idx + 1) (addAll acc ps)
      | .error _ => t2Harvest w ts (idx + 1) acc

/-- The concurrent tier of `find_all_tessdata_paths` followed by
prioritization.  One budget check guards the tier; one further clock
read computes the `as_completed` window.  If the window expires with an
unfinished future before every yielded future is consumed and before
any `break`, the `as_completed` iterator raises `TimeoutError`, which
no handler in `find_all_tessdata_paths` catches. -/
def afterTier1 (w : World) (idx : Nat) (found : List String) (ran : List Nat) : FindRes :=
  if isTimeoutAt w.timeout w.elapsedMain idx then
    ⟨.ok (prioritize_paths posixNormpath found), ran, false⟩
  else
    let yields := w.t2Order.filter w.t2Completed
    let h := t2Harvest w yields (idx + 2) found
    if h.2.1 then ⟨.ok (prioritize_paths posixNormpath h.1), ran, true⟩
    else if w.t2Completed .regTask && w.t2Completed .fsTask then
      ⟨.ok (prioritize_paths posixNormpath h.1), ran, true⟩
    else ⟨.error .timeoutErr, ran, true⟩

/-- `find_all_tessdata_paths`: the sequential tier (one budget check
before each of the three cheap probes, each probe's failure caught),
then the concurrent tier, then `_prioritize_paths`. -/
def find_all_tessdata_paths (w : World) : FindRes :=
  if isTimeoutAt w.timeout w.elapsedMain 0 then afterTier1 w 1 [] []
  else
    let f1 := addAll [] (check_environment_vars w)
    if isTimeoutAt w.timeout w.elapsedMain 1 then afterTier1 w 2 f1 [0]
    else
      let r1 := check_tesseract_binary_info w 2
      let f2 := addAll f1 r1.1
      if isTimeoutAt w.timeout w.elapsedMain r1.2 then afterTier1 w (r1.2 + 1) f2 [0, 1]
      else
        let r2 := check_common_locations w (r1.2 + 1)
        afterTier1 w r2.2 (addAll f2 r2.1) [0, 1, 2]

/-- `find_primary_tessdata_path`: `paths[0] if paths else None` applied
to the result of `find_all_tessdata_paths` in the same state (an
exception raised by `find_all_tessdata_paths` propagates). -/
def find_primary_tessdata_path (w : World) : Except FindErr (Option String) :=
  match (find_all_tessdata_paths w).result with
  | .ok paths => .ok paths.head?
  | .error e => .error e

/-! ## Order lemmas for the sort key -/

lemma charListLeB_cons (a b : Char) (as bs : List Char) :
    charListLeB (a :: as) (b :: bs) = true ↔
      a.toNat < b.toNat ∨ (a.toNat = b.toNat ∧ charListLeB as bs = true) := by
  simp only [charListLeB]
  split_ifs with h1 h2
  · simp [h1]
  · simp only [Bool.false_eq_true, false_iff]
    rintro (h | ⟨h, _⟩) <;> omega
  · have heq : a.toNat = b.toNat := by omega
    simp [heq]

lemma charListLeB_total : ∀ x y : List Char, charListLeB x y = true ∨ charListLeB y x = true
  | [], _ => Or.inl rfl
  | _ :: _, [] => Or.inr rfl
  | a :: as, b :: bs => by
    rw [charListLeB_cons, charListLeB_cons]
    rcases Nat.lt_trichotomy a.toNat b.toNat with h | h | h
    · exact Or.inl (Or.inl h)
    · rcases charListLeB_total as bs with h2 | h2
      · exact Or.inl (Or.inr ⟨h, h2⟩)
      · exact Or.inr (Or.inr ⟨h.symm, h2⟩)
    · exact Or.inr (Or.inl h)

lemma charListLeB_trans : ∀ x y z : List Char,
    charListLeB x y = true → charListLeB y z = true → charListLeB x z = true
  | [], _, _ => fun _ _ => rfl
  | _ :: _, [], _ => fun h _ => by simp [charListLeB] at h
  | _ :: _, _ :: _, [] => fun _ h => by simp [charListLeB] at h
  | a :: as, b :: bs, c :: cs => fun h1 h2 => by
    rw [charListLeB_cons] at h1 h2 ⊢
    rcases h1 with h1 | ⟨h1, h1r⟩ <;> rcases h2 with h2 | ⟨h2, h2r⟩
    · exact Or.inl (by omega)
    · exact Or.inl (by omega)
    · exact Or.inl (by omega)
    · exact Or.inr ⟨by omega, charListLeB_trans as bs cs h1r h2r⟩

lemma keyLeB_iff (x y : Int × String) :
    keyLeB x y = true ↔
      x.1 < y.1 ∨ (x.1 = y.1 ∧ charListLeB x.2.toList y.2.toList = true) := by
  simp only [keyLeB]
  split_ifs with h1 h2
  · simp [h1]
  · simp only [Bool.false_eq_true, false_iff]
    rintro (h | ⟨h, _⟩) <;> omega
  · have heq : x.1 = y.1 := by omega
    simp [heq]

lemma keyLeB_total (x y : Int × String) : keyLeB x y = true ∨ keyLeB y x = true := by
  rw [keyLeB_iff, keyLeB_iff]
  rcases lt_trichotomy x.1 y.1 with h | h | h
  · exact Or.inl (Or.inl h)
  · rcases charListLeB_total x.2.toList y.2.toList with h2 | h2
    · exact Or.inl (Or.inr ⟨h, h2⟩)
    · exact Or.inr (Or.inr ⟨h.symm, h2⟩)
  · exact Or.inr (Or.inl h)

lemma keyLeB_trans (x y z : Int × String) :
    keyLeB x y = true → keyLeB y z = true → keyLeB x z = true := by
  rw [keyLeB_iff, keyLeB_iff, keyLeB_iff]
  rintro (h1 | ⟨h1, h1r⟩) (h2 | ⟨h2, h2r⟩)
  · exact Or.inl (by omega)
  · exact Or.inl (by omega)
  · exact Or.inl (by omega)
  · exact Or.inr ⟨by omega, charListLeB_trans _ _ _ h1r h2r⟩

lemma keyLeB_fst_le (x y : Int × String) (h : keyLeB x y = true) : x.1 ≤ y.1 := by
  rw [keyLeB_iff] at h
  rcases h with h | ⟨h, _⟩ <;> omega

instance : IsTotal String priorityLe := ⟨fun _ _ => keyLeB_total _ _⟩

instance : IsTrans String priorityLe := ⟨fun _ _ _ => keyLeB_trans _ _ _⟩

/-! ## Dedup lemmas -/

lemma dedupNormed_go_mem (normf : String → String) :
    ∀ (paths acc : List String) (x : String),
      (x ∈ paths.foldl (fun acc p =>
        let n := normf p
        if n ∈ acc then acc else acc ++ [n]) acc) ↔
        x ∈ acc ∨ ∃ p ∈ paths, x = normf p := by
  intro paths
  induction paths with
  | nil => simp
  | cons p ps ih =>
    intro acc x
    simp only [List.foldl_cons]
    rw [ih]
    by_cases h : normf p ∈ acc
    · simp only [h, if_pos]
      constructor
      · rintro (hx | hx)
        · exact Or.inl hx
        · exact Or.inr (by simpa using Or.inr hx)
      · rintro (hx | hx)
        · exact Or.inl hx
        · simp only [List.mem_cons] at hx
          rcases hx with ⟨q, hq | hq, hxq⟩
          · exact Or.inl (hxq ▸ hq ▸ h)
          · exact Or.inr ⟨q, hq, hxq⟩
    · simp only [h, if_neg, not_false_iff]
      constructor
      · rintro (hx | hx)
        · rcases List.mem_append.1 hx with hx | hx
          · exact Or.inl hx
          · simp only [List.mem_singleton] at hx
            exact Or.inr ⟨p, by simp, hx⟩
        · rcases hx with ⟨q, hq, hxq⟩
          exact Or.inr ⟨q, by simp [hq], hxq⟩
      · rintro (hx | hx)
        · exact Or.inl (List.mem_append.2 (Or.inl hx))
        · simp only [List.mem_cons] at hx
          rcases hx with ⟨q, hq | hq, hxq⟩
          · exact Or.inl (List.mem_append.2 (Or.inr (by simp [hxq, hq])))
          · exact Or.inr ⟨q, hq, hxq⟩

lemma dedupNormed_mem (normf : String → String) (paths : List String) (x : String) :
    x ∈ dedupNormed normf paths ↔ ∃ p ∈ paths, x = normf p := by
  unfold dedupNormed
  rw [dedupNormed_go_mem]
  simp

lemma dedupNormed_go_nodup (normf : String → String) :
    ∀ (paths acc : List String), acc.Nodup →
      (paths.foldl (fun acc p =>
        let n := normf p
        if n ∈ acc then acc else acc ++ [n]) acc).Nodup := by
  intro paths
  induction paths with
  | nil => intro acc h; simpa using h
  | cons p ps ih =>
    intro acc h
    simp only [List.foldl_cons]
    apply ih
    by_cases hmem : normf p ∈ acc
    · simpa [hmem] using h
    · simp [hmem, List.nodup_append, h]

lemma dedupNormed_nodup (normf : String → String) (paths : List String) :
    (dedupNormed normf paths).Nodup :=
  dedupNormed_go_nodup normf paths [] List.nodup_nil

lemma prioritize_mem (normf : String → String) (paths : List String) (x : String) :
    x ∈ prioritize_paths normf paths ↔ ∃ p ∈ paths, x = normf p := by
  unfold prioritize_paths
  rw [List.mem_insertionSort, dedupNormed_mem]

lemma prioritize_nodup (normf : String → String) (paths : List String) :
    (prioritize_paths normf paths).Nodup :=
  (List.perm_insertionSort priorityLe (dedupNormed normf paths)).symm.nodup
    (dedupNormed_nodup normf paths)

lemma prioritize_sorted (normf : String → String) (paths : List String) :
    (prioritize_paths normf paths).Sorted priorityLe :=
  List.sorted_insertionSort priorityLe (dedupNormed normf paths)

/-! ## Crawl invariants -/

lemma crawlChildren_ok (w : World) (step : String → Nat → Nat → CrawlRes)
    (maxD depth : Nat) (parent : String)
    (hstep : ∀ p i,
      (∀ pd ∈ (step p (depth + 1) i).visited, depth + 1 ≤ pd.2 ∧ pd.2 ≤ maxD) ∧
      (∀ pd ∈ (step p (depth + 1) i).expanded, should_search_directory pd.1 = true) ∧
      (∀ q ∈ (step p (depth + 1) i).found,
        ∃ pd ∈ (step p (depth + 1) i).visited, q = w.resolve pd.1)) :
    ∀ (entries : List String) (idx : Nat),
      (∀ pd ∈ (crawlChildren w step parent depth entries idx).visited,
        depth + 1 ≤ pd.2 ∧ pd.2 ≤ maxD) ∧
      (∀ pd ∈ (crawlChildren w step parent depth entries idx).expanded,
        should_search_directory pd.1 = true) ∧
      (∀ q ∈ (crawlChildren w step parent depth entries idx).found,
        ∃ pd ∈ (crawlChildren w step parent depth entries idx).visited, q = w.resolve pd.1) := by
  intro entries
  induction entries with
  | nil => intro idx; simp [crawlChildren, emptyCrawl]
  | cons name rest ih =>
    intro idx
    simp only [crawlChildren]
    split
    · obtain ⟨hv1, he1, hf1⟩ := hstep (joinSep (osSep w.osType) parent name) idx
      obtain ⟨hv2, he2, hf2⟩ := ih _
      refine ⟨?_, ?_, ?_⟩
      · intro pd hpd
        rcases List.mem_append.1 hpd with h | h
        · exact hv1 pd h
        · exact hv2 pd h
      · intro pd hpd
        rcases List.mem_append.1 hpd with h | h
        · exact he1 pd h
        · exact he2 pd h
      · intro q hq
        rcases List.mem_append.1 hq with h | h
        · obtain ⟨pd, hpd, hq2⟩ := hf1 q h
          exact ⟨pd, List.mem_append.2 (Or.inl hpd), hq2⟩
        · obtain ⟨pd, hpd, hq2⟩ := hf2 q h
          exact ⟨pd, List.mem_append.2 (Or.inr hpd), hq2⟩
    · exact ih idx

lemma recSearch_ok (w : World) (clk : Nat → Rat) (maxD : Nat) :
    ∀ (fuel : Nat) (path : String) (depth idx : Nat),
      (∀ pd ∈ (recSearch w clk maxD fuel path depth idx).visited,
        depth ≤ pd.2 ∧ pd.2 ≤ maxD) ∧
      (∀ pd ∈ (recSearch w clk maxD fuel path depth idx).expanded,
        should_search_directory pd.1 = true) ∧
      (∀ q ∈ (recSearch w clk maxD fuel path depth idx).found,
        ∃ pd ∈ (recSearch w clk maxD fuel path depth idx).visited, q = w.resolve pd.1) := by
  intro fuel
  induction fuel with
  | zero => intro path depth idx; simp [recSearch, emptyCrawl]
  | succ fuel ih =>
    intro path depth idx
    simp only [recSearch]
    by_cases h1 : maxD < depth
    · simp [h1, emptyCrawl]
    rw [if_neg h1]
    by_cases h2 : isTimeoutAt w.timeout clk idx = true
    · simp [h2, emptyCrawl]
    rw [if_neg h2]
    by_cases h3 : (pathName path == "tessdata" && is_valid_tessdata_dir w.fs path) = true
    · rw [if_pos h3]
      refine ⟨?_, by simp, ?_⟩
      · intro pd hpd
        simp only [List.mem_singleton] at hpd
        subst hpd
        exact ⟨le_refl _, by omega⟩
      · intro q hq
        simp only [List.mem_singleton] at hq
        exact ⟨(path, depth), by simp, hq⟩
    rw [if_neg h3]
    by_cases h4 : should_search_directory path = true
    · rw [if_pos h4]
      cases hl : (w.fs path).listing with
      | err =>
        refine ⟨?_, by simp, by simp⟩
        intro pd hpd
        simp only [List.mem_singleton] at hpd
        subst hpd
        exact ⟨le_refl _, by omega⟩
      | ok entries =>
        obtain ⟨hv, he, hf⟩ :=
          crawlChildren_ok w (fun p d i => recSearch w clk maxD fuel p d i) maxD depth path
            (fun p i => ih p (depth + 1) i) entries (idx + 1)
        refine ⟨?_, ?_, ?_⟩
        · intro pd hpd
          rcases List.mem_cons.1 hpd with h | h
          · subst h; exact ⟨le_refl _, by omega⟩
          · obtain ⟨hd1, hd2⟩ := hv pd h
            exact ⟨by omega, hd2⟩
        · intro pd hpd
          rcases List.mem_cons.1 hpd with h | h
          · subst h; exact h4
          · exact he pd h
        · intro q hq
          obtain ⟨pd, hpd, hq2⟩ := hf q hq
          exact ⟨pd, List.mem_cons.2 (Or.inr hpd), hq2⟩
    · rw [if_neg h4]
      refine ⟨?_, by simp, by simp⟩
      intro pd hpd
      simp only [List.mem_singleton] at hpd
      subst hpd
      exact ⟨le_refl _, by omega⟩

/-! ## Concrete worlds used in scenarios and witnesses -/

/-- A filesystem answer for a path that does not exist. -/
def defFs : FsEntryInfo := ⟨false, false, false, false, false, .err⟩

/-- A bare Linux world: nothing set, nothing installed, all clocks at
zero, every tier-2 future and root crawl finishing in time. -/
def w0 : World :=
  { osType := "linux", timeout := 10, maxWorkers := 4, cwd := "/",
    env := fun _ => none, fs := fun _ => defFs, resolve := id, expand := id,
    which := fun _ => none, runBinary := fun _ => .error (),
    winregAvailable := false, registry := fun _ => none,
    elapsedMain := fun _ => 0, elapsedFs := fun _ => 0, elapsedRoot := fun _ _ => 0,
    t2Completed := fun _ => true, t2Order := [.regTask, .fsTask],
    rootCompleted := fun _ => true, rootOrder := [0, 1, 2] }

/-- `w0` with a filesystem crawl that does not finish inside the
`as_completed` window of the concurrent tier (the registry task
finishes and is yielded; the crawl task is still running when the
window expires). -/
def w1 : World := { w0 with t2Completed := fun t => t = .regTask, t2Order := [.regTask] }

/-- The spec's Scenario 1 world: `TESSDATA_PREFIX=/data/ocr` with
`/data/ocr/tessdata` holding `eng.traineddata`. -/
def w6 : World :=
  { w0 with
    env := fun v => if v = "TESSDATA_PREFIX" then some "/data/ocr" else none,
    fs := fun p =>
      if p = "/data/ocr" then
        { defFs with isDir := true, fsExists := true, listing := .ok ["tessdata"] }
      else if p = "/data/ocr/tessdata" then
        { defFs with isDir := true, fsExists := true, listing := .ok ["eng.traineddata"] }
      else defFs }

/-- The spec's Scenario 3 world: `/opt/weird/tessdata` is a valid
tessdata directory, but the intermediate segment `weird` matches no
allow-list keyword and has length at least 3. -/
def w7 : World :=
  { w0 with
    fs := fun p =>
      if p = "/opt" then
        { defFs with isDir := true, fsExists := true, listing := .ok ["weird"] }
      else if p = "/opt/weird" then
        { defFs with isDir := true, fsExists := true, listing := .ok ["tessdata"] }
      else if p = "/opt/weird/tessdata" then
        { defFs with isDir := true, fsExists := true, listing := .ok ["eng.traineddata"] }
      else defFs }

/-- `w0` with `timeout = 0` and every clock reading strictly positive:
the budget is expired on entry at every check. -/
def wC9 : World := { w0 with timeout := 0, elapsedMain := fun _ => 1, elapsedFs := fun _ => 1 }

/-! ## Claim theorems -/

/-- C1: the claim says no exception from an internal probe, subprocess,
registry or filesystem operation — and in particular no tier-2 task
missing the remaining-budget window — can make the public call raise.
The code violates this: `as_completed(futures, timeout=...)` in
`find_all_tessdata_paths` raises `concurrent.futures.TimeoutError` when
a tier-2 future is still unfinished at the end of the window, and no
handler catches that iteration's exception (the `try` only wraps
`future.result`).  In world `w1` the registry task completes and the
filesystem-crawl task misses the window, and the public call returns an
exception instead of a list. -/
theorem find_all_raises_on_missed_future :
    (find_all_tessdata_paths w1).result = Except.error FindErr.timeoutErr := by decide

/-- C2: `find_primary_tessdata_path` returns exactly the head of the
sequence `find_all_tessdata_paths` returns in the same state, and is
`None` exactly when that sequence is empty. -/
theorem find_primary_is_head_of_find_all (w : World) (l : List String)
    (h : (find_all_tessdata_paths w).result = .ok l) :
    find_primary_tessdata_path w = .ok l.head? ∧
      (find_primary_tessdata_path w = .ok none ↔ l = []) := by
  unfold find_primary_tessdata_path
  rw [h]
  exact ⟨rfl, by simp⟩

/-- Witness for C2 at the bare world `w0`, whose search finds nothing. -/
theorem find_primary_is_head_witness :
    find_primary_tessdata_path w0 = .ok (List.head? []) ∧
      (find_primary_tessdata_path w0 = .ok none ↔ ([] : List String) = []) :=
  find_primary_is_head_of_find_all w0 [] (by decide)

/-- C3: `_is_valid_tessdata_dir path` is true iff `path` is an existing
directory whose listing contains an entry with suffix `.traineddata`;
a listing that raises (modelled `ListingResult.err`) yields `false`,
and no error propagates (the function is total). -/
theorem validator_iff_spec (fs : String → FsEntryInfo) (path : String) :
    is_valid_tessdata_dir fs path = true ↔
      ((fs path).isDir = true ∧ ∃ entries, (fs path).listing = ListingResult.ok entries ∧
        ∃ f ∈ entries, pathSuffix f = ".traineddata") := by
  unfold is_valid_tessdata_dir
  cases hd : (fs path).isDir
  · simp [hd]
  · cases hl : (fs path).listing with
    | ok entries => simp [hd, hl, List.any_eq_true]
    | err => simp [hd, hl]

/-- C4: `_prioritize_paths` returns a list in which no two elements
normalize to the same canonical path, every element is the normalized
form of some input, and every input's normalized form appears.  `normf`
stands for `os.path.normpath`; the hypothesis states it is idempotent
on the inputs at hand (true of `normpath`). -/
theorem prioritize_dedups_and_normalizes (normf : String → String) (paths : List String)
    (hid : ∀ p ∈ paths, normf (normf p) = normf p) :
    (∀ i j : Fin (prioritize_paths normf paths).length, i ≠ j →
      normf ((prioritize_paths normf paths).get i) ≠
        normf ((prioritize_paths normf paths).get j)) ∧
    (∀ x ∈ prioritize_paths normf paths, ∃ p ∈ paths, x = normf p) ∧
    (∀ p ∈ paths, normf p ∈ prioritize_paths normf paths) := by
  have hmem := prioritize_mem normf paths
  have hnd := prioritize_nodup normf paths
  have hfix : ∀ x ∈ prioritize_paths normf paths, normf x = x := by
    intro x hx
    obtain ⟨p, hp, hxe⟩ := (hmem x).1 hx
    rw [hxe]
    exact hid p hp
  refine ⟨?_, fun x hx => (hmem x).1 hx, fun p hp => (hmem _).2 ⟨p, hp, rfl⟩⟩
  intro i j hij
  rw [hfix _ (List.get_mem _ _ i.2), hfix _ (List.get_mem _ _ j.2)]
  intro heq
  exact hij ((List.Nodup.get_inj_iff hnd).1 heq)

/-- Witness for C4 with `os.path.normpath` itself and inputs in which
two spellings normalize to the same directory. -/
theorem prioritize_dedups_witness :
    (∀ x ∈ prioritize_paths posixNormpath ["/a//b", "/a/b", "/c"],
      ∃ p ∈ ["/a//b", "/a/b", "/c"], x = posixNormpath p) ∧
    (∀ p ∈ ["/a//b", "/a/b", "/c"],
      posixNormpath p ∈ prioritize_paths posixNormpath ["/a//b", "/a/b", "/c"]) :=
  ⟨(prioritize_dedups_and_normalizes posixNormpath ["/a//b", "/a/b", "/c"] (by decide)).2.1,
   (prioritize_dedups_and_normalizes posixNormpath ["/a//b", "/a/b", "/c"] (by decide)).2.2⟩

/-- C5: if candidate `A` contains an engine-prefix token
(`'tessdata_prefix'` or `'tesseract'`) and `B` does not, with the other
two scoring conditions equal, then `A` scores exactly 1000 lower and is
placed before `B` in the output of `_prioritize_paths`. -/
theorem prefix_token_sorts_first (normf : String → String) (paths : List String)
    (A B : String)
    (_hA : A ∈ prioritize_paths normf paths) (_hB : B ∈ prioritize_paths normf paths)
    (htA : hasPrefixToken (strLower A) = true)
    (htB : hasPrefixToken (strLower B) = false)
    (hsys : hasSysLocation (strLower A) = hasSysLocation (strLower B))
    (hdig : hasDigit A = hasDigit B) :
    (priority_key A).1 = (priority_key B).1 - 1000 ∧
      ∀ i j : Fin (prioritize_paths normf paths).length,
        (prioritize_paths normf paths).get i = A →
        (prioritize_paths normf paths).get j = B → i < j := by
  have hscore : (priority_key A).1 = (priority_key B).1 - 1000 := by
    simp only [priority_key, htA, htB, hsys, hdig, if_true, if_false]
    by_cases h1 : hasSysLocation (strLower B) = true <;>
      by_cases h2 : hasDigit B = true <;> simp [h1, h2]
  refine ⟨hscore, fun i j hi hj => ?_⟩
  rcases lt_trichotomy (i : Nat) (j : Nat) with h | h | h
  · exact h
  · exfalso
    have hAB : A = B := by rw [← hi, ← hj]; congr 1; exact Fin.ext h
    rw [hAB, htB] at htA
    exact Bool.false_ne_true htA
  · exfalso
    have hrel : priorityLe ((prioritize_paths normf paths).get j)
        ((prioritize_paths normf paths).get i) :=
      (prioritize_sorted normf paths).rel_get_of_lt h
    rw [hi, hj] at hrel
    have hle := keyLeB_fst_le _ _ hrel
    omega

/-- Witness for C5 on a two-element candidate set. -/
theorem prefix_token_sorts_first_witness :
    (priority_key "/a/tesseract").1 = (priority_key "/b").1 - 1000 ∧
      ∀ i j : Fin (prioritize_paths id ["/b", "/a/tesseract"]).length,
        (prioritize_paths id ["/b", "/a/tesseract"]).get i = "/a/tesseract" →
        (prioritize_paths id ["/b", "/a/tesseract"]).get j = "/b" → i < j :=
  prefix_token_sorts_first id ["/b", "/a/tesseract"] "/a/tesseract" "/b"
    (by decide) (by decide) (by decide) (by decide) (by decide) (by decide)

/-- C6 counterexample: the claim asserts that `/data/ocr/tessdata`
receives the subtract-1000 prefix-token component of its priority
score, i.e. that `hasPrefixToken` holds of its lowercased form.  It
does not: the scoring tokens are the literal strings
`'tessdata_prefix'` and `'tesseract'`, and neither occurs in
`/data/ocr/tessdata`. -/
theorem scenario1_no_prefix_token_bonus :
    hasPrefixToken (strLower "/data/ocr/tessdata") = false := by decide

/-- C6 (amended): with `TESSDATA_PREFIX=/data/ocr` and a valid
`/data/ocr/tessdata`, the search returns that path ranked first — but
its score is `0`: it receives no subtract-1000 prefix-token bonus. -/
theorem scenario1_ranked_first_without_bonus :
    (find_all_tessdata_paths w6).result = .ok ["/data/ocr/tessdata"] ∧
      (priority_key "/data/ocr/tessdata").1 = 0 := by decide

/-- C7: during the crawl, a directory's children are iterated only when
`_should_search_directory` accepts that directory's name; consequently
the valid directory `/opt/weird/tessdata` of world `w7`, reachable only
through the segment `weird` (no allow-list keyword, length at least 3),
is never found by `_search_filesystem_smart`. -/
theorem crawl_descends_only_into_accepted_dirs :
    (∀ (w : World) (clk : Nat → Rat) (root : String) (i0 : Nat),
      ∀ pd ∈ (search_directory_tree w clk root i0).expanded,
        should_search_directory pd.1 = true) ∧
    is_valid_tessdata_dir w7.fs "/opt/weird/tessdata" = true ∧
    (search_filesystem_smart w7).result = .ok [] := by
  refine ⟨?_, by decide, by decide⟩
  intro w clk root i0 pd hpd
  exact (recSearch_ok w clk (maxDepthOf w.osType) (maxDepthOf w.osType + 2) root 0 i0).2.1 pd hpd

/-- Witness for C7: the root `/opt` is expanded by the crawl of `w7`,
so the theorem yields that its name passes `_should_search_directory`. -/
theorem crawl_descends_only_witness : should_search_directory "/opt" = true :=
  crawl_descends_only_into_accepted_dirs.1 w7 (fun _ => 0) "/opt" 0 ("/opt", 0) (by decide)

/-- C8: every directory the per-root crawl visits lies at depth at most
`max_depth` (4 on Windows, 5 elsewhere) below the root, every recorded
result comes from such a visited directory, and a branch stops
immediately — visiting nothing — once its depth exceeds the maximum or
the budget has expired.  (Termination on every world is witnessed by
`recSearch` being a total Lean function: the depth guard bounds the
recursion.) -/
theorem crawl_depth_bounded :
    (∀ (w : World) (clk : Nat → Rat) (root : String) (i0 : Nat),
      (∀ pd ∈ (search_directory_tree w clk root i0).visited, pd.2 ≤ maxDepthOf w.osType) ∧
      (∀ q ∈ (search_directory_tree w clk root i0).found,
        ∃ pd ∈ (search_directory_tree w clk root i0).visited,
          pd.2 ≤ maxDepthOf w.osType ∧ q = w.resolve pd.1)) ∧
    (∀ (w : World) (clk : Nat → Rat) (maxD fuel : Nat) (path : String) (depth idx : Nat),
      maxD < depth → recSearch w clk maxD (fuel + 1) path depth idx = emptyCrawl idx) ∧
    (∀ (w : World) (clk : Nat → Rat) (maxD fuel : Nat) (path : String) (depth idx : Nat),
      depth ≤ maxD → isTimeoutAt w.timeout clk idx = true →
      recSearch w clk maxD (fuel + 1) path depth idx = emptyCrawl (idx + 1)) := by
  refine ⟨?_, ?_, ?_⟩
  · intro w clk root i0
    obtain ⟨hv, _, hf⟩ := recSearch_ok w clk (maxDepthOf w.osType) (maxDepthOf w.osType + 2) root 0 i0
    refine ⟨fun pd hpd => (hv pd hpd).2, fun q hq => ?_⟩
    obtain ⟨pd, hpd, hq2⟩ := hf q hq
    exact ⟨pd, hpd, (hv pd hpd).2, hq2⟩
  · intro w clk maxD fuel path depth idx h
    simp only [recSearch]
    rw [if_pos h]
  · intro w clk maxD fuel path depth idx h1 h2
    simp only [recSearch]
    rw [if_neg (by omega), if_pos h2]

/-- Witness for C8: the directory `/opt/weird`, visited at depth 1 by
the crawl of `w7` from root `/opt`, is within the non-Windows depth
bound. -/
theorem crawl_depth_bounded_witness : (("/opt/weird", 1) : String × Nat).2 ≤ maxDepthOf w7.osType :=
  (crawl_depth_bounded.1 w7 (fun _ => 0) "/opt" 0).1 ("/opt/weird", 1) (by decide)

/-- C9: with `timeout = 0` and any strictly positive time elapsed at
every budget check (the claim's expired-on-entry reading), the public
search runs no tier-1 probe, never starts the concurrent tier, returns
the empty list, and `_search_filesystem_smart` returns empty without
visiting any directory. -/
theorem timeout_zero_no_work (w : World) (h0 : w.timeout = 0)
    (hm : ∀ n, 0 < w.elapsedMain n) (hf : ∀ n, 0 < w.elapsedFs n) :
    (find_all_tessdata_paths w).result = .ok [] ∧
    (find_all_tessdata_paths w).probesRun = [] ∧
    (find_all_tessdata_paths w).tier2Ran = false ∧
    (search_filesystem_smart w).result = .ok [] ∧
    (search_filesystem_smart w).visited = [] := by
  have htm : ∀ i, isTimeoutAt w.timeout w.elapsedMain i = true := fun i => by
    simp only [isTimeoutAt, h0, decide_eq_true_eq]
    exact hm i
  have htf : isTimeoutAt w.timeout w.elapsedFs 0 = true := by
    simp only [isTimeoutAt, h0, decide_eq_true_eq]
    exact hf 0
  have hpri : prioritize_paths posixNormpath [] = [] := rfl
  refine ⟨?_, ?_, ?_, ?_, ?_⟩ <;>
    simp [find_all_tessdata_paths, afterTier1, search_filesystem_smart, htm 0, htm 1, htf, hpri]

/-- Witness for C9 at the concrete world `wC9`. -/
theorem timeout_zero_no_work_witness :
    (find_all_tessdata_paths wC9).result = .ok [] ∧
    (find_all_tessdata_paths wC9).probesRun = [] ∧
    (find_all_tessdata_paths wC9).tier2Ran = false ∧
    (search_filesystem_smart wC9).result = .ok [] ∧
    (search_filesystem_smart wC9).visited = [] :=
  timeout_zero_no_work wC9 rfl (fun _ => one_pos) (fun _ => one_pos)

/-- C10: on a non-Windows platform `/usr` is one of the crawl's search
roots, yet `_search_directory_tree` on it finds nothing and visits
nothing beneath it: the root's own name `usr` is not `tessdata`,
matches no allow-list keyword and has length 3, so
`_should_search_directory` rejects it. -/
theorem usr_root_rejected (w : World) (clk : Nat → Rat) (i0 : Nat)
    (h : w.osType ≠ "windows") :
    "/usr" ∈ get_search_roots w ∧
    (search_directory_tree w clk "/usr" i0).found = [] ∧
    (∀ pd ∈ (search_directory_tree w clk "/usr" i0).visited, pd = ("/usr", 0)) := by
  have hmax : maxDepthOf w.osType = 5 := by simp [maxDepthOf, h]
  have hsdt : search_directory_tree w clk "/usr" i0 = recSearch w clk 5 7 "/usr" 0 i0 := by
    simp [search_directory_tree, hmax]
  have hname : (pathName "/usr" == "tessdata") = false := by decide
  have hshould : should_search_directory "/usr" = false := by decide
  have hstep : recSearch w clk 5 7 "/usr" 0 i0 =
      if isTimeoutAt w.timeout clk i0 then emptyCrawl (i0 + 1)
      else ⟨[], [("/usr", 0)], [], i0 + 1⟩ := by
    rw [show (7 : Nat) = 6 + 1 from rfl]
    simp only [recSearch]
    rw [if_neg (by omega)]
    by_cases h2 : isTimeoutAt w.timeout clk i0 = true
    · simp [h2]
    · simp [h2, hname, hshould]
  refine ⟨by simp [get_search_roots, h], ?_, ?_⟩
  · rw [hsdt, hstep]
    by_cases h2 : isTimeoutAt w.timeout clk i0 = true <;> simp [h2, emptyCrawl]
  · rw [hsdt, hstep]
    by_cases h2 : isTimeoutAt w.timeout clk i0 = true <;> simp [h2, emptyCrawl]

/-- Witness for C10 at the bare Linux world. -/
theorem usr_root_rejected_witness :
    "/usr" ∈ get_search_roots w0 ∧
    (search_directory_tree w0 (fun _ => 0) "/usr" 0).found = [] ∧
    (∀ pd ∈ (search_directory_tree w0 (fun _ => 0) "/usr" 0).visited, pd = ("/usr", 0)) :=
  usr_root_rejected w0 (fun _ => 0) 0 (by decide)
